import Mathlib

/-!
Shallow embedding of the core of `rgw3d/everylotbot-cincinnati`
(file `src/everylot/everylot.py`): the zoning-code decoder, the address
sanitizer, the lot selection queries, the posting-state update and the
post composer, together with theorems settling the specification claims.

Python strings are modelled as Lean `String` / `List Char`; SQLite rows of
the `cincinnati_lots` table are modelled as a `Lot` structure for the
selection/update claims and as an association list (the `dict(row)` of the
source) for the composition claims.  All definitions are computable and
translated directly from the source.
-/

namespace EverylotCincinnati

/-! ## Zoning decoder — `get_cincinnati_zoning_description`, everylot.py lines 203-315 -/

/-- The `base_descriptions` dictionary of the source (lines 209-261), in source order. -/
def base_descriptions : List (String × String) :=
  [ ("SF-20", "Single-family (20,000 sq ft min lot)"),
    ("SF-10", "Single-family (10,000 sq ft min lot)"),
    ("SF-6",  "Single-family (6,000 sq ft min lot)"),
    ("SF-4",  "Single-family (4,000 sq ft min lot)"),
    ("SF-2",  "Single-family (2,000 sq ft min lot)"),
    ("RMX",    "Residential Mixed"),
    ("RM-2.0", "Residential Multi-family (2,000 sq ft land/unit)"),
    ("RM-1.2", "Residential Multi-family (1,200 sq ft land/unit)"),
    ("RM-0.7", "Residential Multi-family (700 sq ft land/unit)"),
    ("OL", "Office Limited"),
    ("OG", "Office General"),
    ("CN", "Commercial Neighborhood"),
    ("CC", "Commercial Community"),
    ("CG", "Commercial General"),
    ("UM", "Urban Mix"),
    ("DD", "Downtown Development"),
    ("MA", "Manufacturing Agricultural"),
    ("ML", "Manufacturing Limited"),
    ("MG", "Manufacturing General"),
    ("ME", "Manufacturing Exclusive"),
    ("RF-R", "Riverfront Residential/Recreational"),
    ("RF-C", "Riverfront Commercial"),
    ("RF-M", "Riverfront Manufacturing"),
    ("PR", "Parks and Recreation"),
    ("IR", "Institutional-Residential"),
    ("PD", "Planned Development"),
    ("T3E", "T3 Estate (Sub-Urban)"),
    ("T3N", "T3 Neighborhood (Sub-Urban)"),
    ("T4N.MF", "T4 Neighborhood Medium Footprint (General Urban)"),
    ("T4N.SF", "T4 Neighborhood Small Footprint (General Urban)"),
    ("T5MS", "T5 Main Street (Urban Center)"),
    ("T5N.LS", "T5 Neighborhood Large Setback (Urban Center)"),
    ("T5N.SS", "T5 Neighborhood Small Setback (Urban Center)"),
    ("T5F", "T5 Flex (Urban Center)") ]

/-- The `known_suffixes` dictionary of the source (lines 278-286). -/
def known_suffixes : List (String × String) :=
  [ ("T", "Transportation Corridor Overlay"),
    ("MH", "Middle Housing Overlay"),
    ("B", "Neighborhood Business District"),
    ("P", "Pedestrian-Oriented"),
    ("A", "Auto-Oriented"),
    ("M", "Mixed-Use"),
    ("O", "Open Sub-Zone") ]

/-- Python `sep.join(xs)`. -/
def joinWith (sep : String) : List String → String
  | [] => ""
  | [x] => x
  | x :: y :: xs => x ++ sep ++ joinWith sep (y :: xs)

/-- Helper for Python `code.split(sep)` with a one-character separator:
every separator occurrence creates a boundary and empty pieces are kept
(`"".split(sep) == [""]`). -/
def splitCharAux (sep : Char) : List Char → List Char → List (List Char)
  | [], acc => [acc.reverse]
  | c :: cs, acc =>
    if c == sep then acc.reverse :: splitCharAux sep cs []
    else splitCharAux sep cs (c :: acc)

/-- Python `s.split(sep)` for a one-character separator. -/
def splitChar (sep : Char) (s : String) : List String :=
  (splitCharAux sep s.toList []).map (fun t => String.mk t)

/-- The suffix translation of source lines 301-308: a known suffix maps to its
description, an unknown suffix passes through unchanged. -/
def suffixDesc (suf : String) : String :=
  (List.lookup suf known_suffixes).getD suf

/-- The source loop of lines 293-313: `for i in range(len(parts), 0, -1)`,
returning the full description from inside the loop at the first (longest)
prefix of `parts` that re-joins to a key of `base_descriptions`, and `none`
when the loop falls through. -/
def findBaseLoop (parts : List String) : Nat → Option String
  | 0 => none
  | k + 1 =>
    match List.lookup (joinWith "-" (parts.take (k + 1))) base_descriptions with
    | some base_desc =>
      let suffix_descs := (parts.drop (k + 1)).map suffixDesc
      some (if suffix_descs.isEmpty then base_desc
            else base_desc ++ " - " ++ joinWith ", " suffix_descs)
    | none => findBaseLoop parts k

/-- `get_cincinnati_zoning_description` (source lines 203-315): exact base-code
match first (line 274), otherwise the longest-prefix loop over the
hyphen-split parts, otherwise the unknown-code message (line 315). -/
def get_cincinnati_zoning_description (code : String) : String :=
  match List.lookup code base_descriptions with
  | some d => d
  | none =>
    match findBaseLoop (splitChar '-' code) (splitChar '-' code).length with
    | some desc => desc
    | none => "Unknown Zoning Code: " ++ code

/-! ### Reference algorithm for claim C2, written from the spec's words -/

/-- Modelled from the spec: the length of the longest prefix of `parts`
(re-joined with a hyphen) that is a base-code key, trying lengths from the
full part count down to 1, longest first. -/
def longestBasePrefixLen (parts : List String) : Nat → Option Nat
  | 0 => none
  | k + 1 =>
    if (List.lookup (joinWith "-" (parts.take (k + 1))) base_descriptions).isSome
    then some (k + 1)
    else longestBasePrefixLen parts k

/-- Modelled from the spec: exact key returns its description immediately;
otherwise the longest base-code prefix is chosen, the remaining parts are
mapped through the suffix dictionary (unknown tokens pass through), and the
result is the base description followed by a comma-joined suffix list
(omitted when empty); when no prefix matches, the unknown-code message. -/
def decodeZoning_spec (code : String) : String :=
  match List.lookup code base_descriptions with
  | some d => d
  | none =>
    match longestBasePrefixLen (splitChar '-' code) (splitChar '-' code).length with
    | some k =>
      match List.lookup (joinWith "-" ((splitChar '-' code).take k)) base_descriptions with
      | some base_desc =>
        if (((splitChar '-' code).drop k).map suffixDesc).isEmpty then base_desc
        else base_desc ++ " - " ++ joinWith ", " (((splitChar '-' code).drop k).map suffixDesc)
      | none => "Unknown Zoning Code: " ++ code
    | none => "Unknown Zoning Code: " ++ code

/-! ## Address sanitizer — `EveryLot.sanitize_address`, everylot.py lines 138-196 -/

/-- Python whitespace for `str.strip()` / `str.split()` (ASCII range). -/
def isPySpace (c : Char) : Bool :=
  c == ' ' || c == '\t' || c == '\n' || c == '\r' || c == '\x0b' || c == '\x0c'

/-- Python `s.strip()`: drop leading and trailing whitespace. -/
def pyTrim (cs : List Char) : List Char :=
  ((cs.dropWhile isPySpace).reverse.dropWhile isPySpace).reverse

/-- Python `s.split(',')[0]`: the part of the string before the first comma
(the whole string when there is no comma). -/
def beforeComma (cs : List Char) : List Char :=
  cs.takeWhile (fun c => c != ',')

/-- Helper for Python `s.split()` (no separator): split on runs of whitespace,
discarding empty pieces.  `acc` holds the current token reversed. -/
def pySplitAux : List Char → List Char → List (List Char)
  | [], acc => if acc.isEmpty then [] else [acc.reverse]
  | c :: cs, acc =>
    if isPySpace c then
      if acc.isEmpty then pySplitAux cs [] else acc.reverse :: pySplitAux cs []
    else pySplitAux cs (c :: acc)

/-- Python `s.split()` on a character list, producing the token strings. -/
def pySplit (cs : List Char) : List String :=
  (pySplitAux cs []).map (fun t => String.mk t)

/-- The `directions` dictionary of the source (lines 158-163), in source order. -/
def directions : List (String × String) :=
  [ ("N", "North"), ("S", "South"), ("E", "East"), ("W", "West") ]

/-- The `street_types` dictionary of the source (lines 166-180), in source order. -/
def street_types : List (String × String) :=
  [ ("AVE", "Avenue"), ("ST", "Street"), ("BLVD", "Boulevard"), ("RD", "Road"),
    ("DR", "Drive"), ("CT", "Court"), ("PL", "Place"), ("TER", "Terrace"),
    ("LN", "Lane"), ("WAY", "Way"), ("CIR", "Circle"), ("PKY", "Parkway"),
    ("SQ", "Square") ]

/-- Python `s.capitalize()`: first character uppercased, the rest lowercased
(ASCII case mapping). -/
def pyCapitalize (s : String) : String :=
  match s.toList with
  | [] => s
  | c :: cs => String.mk (c.toUpper :: cs.map Char.toLower)

/-- First character uppercased, the rest left unchanged.  This is the token
transformation claimed by the spec for plain street-name tokens (it is NOT
what Python's `str.capitalize()` does). -/
def firstUpperOnly (s : String) : String :=
  match s.toList with
  | [] => s
  | c :: cs => String.mk (c.toUpper :: cs)

/-- The token loop of source lines 184-194 for the tokens after the house
number, parameterised by the transformation `cap` applied to plain tokens:
a direction expands and processing continues; the first street type expands
and processing stops (the `break` of line 192); any other token is
transformed by `cap`. -/
def restLoop (cap : String → String) : List String → List String
  | [] => []
  | p :: ps =>
    match List.lookup p directions with
    | some d => d :: restLoop cap ps
    | none =>
      match List.lookup p street_types with
      | some t => [t]
      | none => cap p :: restLoop cap ps

/-- `EveryLot.sanitize_address` (source lines 138-196).  The per-token
`part.strip()` of line 185 is a no-op on whitespace-split tokens and is not
repeated here; token 0 is emitted verbatim and the rest go through the loop
with Python `capitalize` for plain tokens. -/
def sanitize_address (address : String) : String :=
  if address == "" then address
  else
    match pySplit (beforeComma (pyTrim address.toList)) with
    | [] => address
    | p0 :: rest => joinWith " " (p0 :: restLoop pyCapitalize rest)

/-- Modelled from the spec (claim C3 as stated): substring before the first
comma, whitespace-split; token 0 verbatim; directions expanded; the first
street type expanded with everything after it dropped; every other token
emitted with its first letter uppercased (rest unchanged); tokens joined
with single spaces; the input returned unchanged when it yields no tokens. -/
def sanitizeSpecStated (s : String) : String :=
  match pySplit (beforeComma s.toList) with
  | [] => s
  | p0 :: rest => joinWith " " (p0 :: restLoop firstUpperOnly rest)

/-- The amended reference for claim C3: identical to `sanitizeSpecStated`
except that a plain token has its first letter uppercased and the remaining
letters lowercased (Python `str.capitalize`). -/
def sanitizeSpecAmended (s : String) : String :=
  match pySplit (beforeComma s.toList) with
  | [] => s
  | p0 :: rest => joinWith " " (p0 :: restLoop pyCapitalize rest)

/-! ## Lot selection and posting state — queries at everylot.py lines 8-22,
`EveryLot.__init__` lines 49-62 and `EveryLot.mark_as_posted` lines 349-363 -/

/-- One row of the `cincinnati_lots` table, restricted to the columns the
selection queries and the posting update touch. -/
structure Lot where
  ogc_fid : Nat
  is_posted : Bool
  improvement_value : Int
  post_url : Option String
  post_date : Option String
deriving DecidableEq

/-- The `WHERE` clause of `NEXT_LOT_QUERY` (lines 11-12):
`is_posted = 0 AND improvement_value > 0`. -/
def lotEligible (r : Lot) : Bool :=
  (!r.is_posted) && decide (0 < r.improvement_value)

/-- The candidate set of `NEXT_LOT_QUERY` (lines 8-15): `ORDER BY RANDOM()
LIMIT 1` returns one row of this list when it is non-empty (modelled
nondeterministically as membership) and no row when it is empty.  The query
is read-only: it returns rows and leaves the table untouched. -/
def nextLotCandidates (db : List Lot) : List Lot :=
  db.filter lotEligible

/-- `SPECIFIC_LOT_QUERY` (lines 17-22): the row with `ogc_fid = ?`, `LIMIT 1`,
with no condition on `is_posted`.  Read-only. -/
def specificLot (db : List Lot) (i : Nat) : Option Lot :=
  db.find? (fun r => r.ogc_fid == i)

/-- `EveryLot.mark_as_posted` (lines 349-363): the single UPDATE statement
`SET is_posted = 1, post_url = ?, post_date = date('now') WHERE ogc_fid = ?`.
`lotId` models `self.lot['id']` and `today` models `date('now')`; the
`platform` parameter is taken exactly as in the source signature. -/
def mark_as_posted (db : List Lot) (platform : String) (post_id : String)
    (lotId : Nat) (today : String) : List Lot :=
  db.map (fun r =>
    if r.ogc_fid = lotId then
      Lot.mk r.ogc_fid true r.improvement_value (some post_id) (some today)
    else r)

/-! ## Post composer — `EveryLot.compose`, everylot.py lines 318-347.
The `dict(row)` of the source is modelled as an association list with
first-match lookup; `str.format` templates are modelled as parsed sequences
of literal and named-placeholder pieces. -/

/-- Python `d.get(k, dflt)`. -/
def dictGetD (d : List (String × String)) (k : String) (dflt : String) : String :=
  (List.lookup k d).getD dflt

/-- Python `d[k] = v` on a dict: replace the binding in place when the key is
present, append it otherwise. -/
def dictSet : List (String × String) → String → String → List (String × String)
  | [], k, v => [(k, v)]
  | (k0, v0) :: rest, k, v =>
    if k0 == k then (k, v) :: rest else (k0, v0) :: dictSet rest k v

/-- One piece of a parsed `str.format` template: literal text or a named
placeholder (the source's templates use only named fields; format specifiers
do not affect field lookup and are abstracted away). -/
inductive Tmpl where
  | lit : String → Tmpl
  | field : String → Tmpl
deriving DecidableEq

/-- The placeholder names a template references, in order. -/
def tmplRefs (t : List Tmpl) : List String :=
  t.filterMap (fun item =>
    match item with
    | Tmpl.lit _ => none
    | Tmpl.field n => some n)

/-- Python `template.format(**ctx)`: substitute every named placeholder from
`ctx`, failing with the first missing field name (the `KeyError` of
`str.format`). -/
def renderTmpl (ctx : List (String × String)) : List Tmpl → Except String String
  | [] => Except.ok ""
  | Tmpl.lit s :: rest =>
    match renderTmpl ctx rest with
    | Except.ok r => Except.ok (s ++ r)
    | Except.error e => Except.error e
  | Tmpl.field n :: rest =>
    match List.lookup n ctx with
    | some v =>
      match renderTmpl ctx rest with
      | Except.ok r => Except.ok (v ++ r)
      | Except.error e => Except.error e
    | none => Except.error n

/-- Line 330 of the source: `post_data['address'] = sanitized_address`, with
`sanitized_address = self.sanitize_address(self.lot.get('address', ''))`. -/
def composeAddr (lot : List (String × String)) : List (String × String) :=
  dictSet lot "address" (sanitize_address (dictGetD lot "address" ""))

/-- The `post_data` built by `compose` (lines 326-335): the raw record with
`address` overwritten by its sanitized form and, when the `zoning` key is
present (line 333), `zoning` overwritten by `"<decoded> (<original>)"`. -/
def composeContext (lot : List (String × String)) : List (String × String) :=
  match List.lookup "zoning" (composeAddr lot) with
  | some old =>
    dictSet (composeAddr lot) "zoning"
      (get_cincinnati_zoning_description old ++ " (" ++ old ++ ")")
  | none => composeAddr lot

/-- The dict returned by `compose` (lines 341-345). -/
structure PostDraft where
  status : String
  lat : String
  long : String
deriving DecidableEq

/-- `EveryLot.compose` (lines 318-347): render `print_format` over the
composed context; a missing placeholder propagates as an error (the
uncaught `KeyError` of line 338), otherwise the post draft is returned with
the record's `lat`/`lon` (default `0.0`). -/
def compose (lot : List (String × String)) (print_format : List Tmpl) :
    Except String PostDraft :=
  match renderTmpl (composeContext lot) print_format with
  | Except.error e => Except.error e
  | Except.ok status =>
    Except.ok (PostDraft.mk status (dictGetD lot "lat" "0.0") (dictGetD lot "lon" "0.0"))

/-! ## Sample data used by the witness theorems -/

/-- An unposted lot with positive improvement value. -/
def wLotA : Lot := Lot.mk 1 false 5 none none

/-- An already posted lot. -/
def wLotB : Lot := Lot.mk 2 true 7 none none

/-- A two-row sample table. -/
def wDb : List Lot := [wLotA, wLotB]

/-- A sample record row for the composer. -/
def wLotC : List (String × String) :=
  [ ("address", "2023 N DAMEN AVE"), ("zoning", "SF-4"),
    ("lat", "39.1"), ("lon", "-84.5") ]

/-- A record row with a zoning value. -/
def wLotZ : List (String × String) :=
  [ ("zoning", "SF-4-T"), ("address", "1 MAIN ST") ]

/-- A record row without a zoning value. -/
def wLotN : List (String × String) := [ ("address", "1 MAIN ST") ]

/-- A template whose placeholders all resolve against `wLotC`. -/
def wTmplOk : List Tmpl :=
  [ Tmpl.field "address", Tmpl.lit " zoned ", Tmpl.field "zoning" ]

/-- A template referencing a field absent from `wLotC`. -/
def wTmplBad : List Tmpl := [ Tmpl.field "acreage" ]

/-! ## Helper lemmas -/

theorem findBaseLoop_eq_spec (parts : List String) :
    ∀ n : Nat, findBaseLoop parts n =
      match longestBasePrefixLen parts n with
      | some k =>
        match List.lookup (joinWith "-" (parts.take k)) base_descriptions with
        | some base_desc =>
          some (if ((parts.drop k).map suffixDesc).isEmpty then base_desc
                else base_desc ++ " - " ++ joinWith ", " ((parts.drop k).map suffixDesc))
        | none => none
      | none => none := by
  intro n
  induction n with
  | zero => simp [findBaseLoop, longestBasePrefixLen]
  | succ k ih =>
    cases h : List.lookup (joinWith "-" (parts.take (k + 1))) base_descriptions with
    | some bd => simp [findBaseLoop, longestBasePrefixLen, h]
    | none => simpa [findBaseLoop, longestBasePrefixLen, h] using ih

theorem zoning_decode_eq_spec :
    ∀ s : String, get_cincinnati_zoning_description s = decodeZoning_spec s := by
  intro s
  unfold get_cincinnati_zoning_description decodeZoning_spec
  cases h : List.lookup s base_descriptions with
  | some d => rfl
  | none =>
    rw [findBaseLoop_eq_spec]
    cases hk : longestBasePrefixLen (splitChar '-' s) (splitChar '-' s).length with
    | none => rfl
    | some k =>
      dsimp only
      cases List.lookup (joinWith "-" ((splitChar '-' s).take k)) base_descriptions <;> rfl

theorem takeWhile_dropWhile_comm {p q : Char → Bool} (h : ∀ c, q c = true → p c = true) :
    ∀ cs : List Char, (cs.dropWhile q).takeWhile p = (cs.takeWhile p).dropWhile q := by
  intro cs
  induction cs with
  | nil => rfl
  | cons c cs ih =>
    by_cases hq : q c = true
    · have hp : p c = true := h c hq
      simp [List.dropWhile_cons, List.takeWhile_cons, hq, hp, ih]
    · by_cases hp : p c = true
      · simp [List.dropWhile_cons, List.takeWhile_cons, hq, hp]
      · simp [List.dropWhile_cons, List.takeWhile_cons, hq, hp]

theorem pySplitAux_dropWhile_ws :
    ∀ cs : List Char, pySplitAux (cs.dropWhile isPySpace) [] = pySplitAux cs [] := by
  intro cs
  induction cs with
  | nil => rfl
  | cons c cs ih =>
    by_cases hc : isPySpace c = true
    · simp [List.dropWhile_cons, hc, pySplitAux, ih]
    · simp [List.dropWhile_cons, hc]

theorem pySplitAux_all_ws {t : List Char} (h : ∀ c ∈ t, isPySpace c = true) :
    ∀ acc : List Char, pySplitAux t acc = pySplitAux [] acc := by
  induction t with
  | nil => intro acc; rfl
  | cons c t ih =>
    intro acc
    have hc : isPySpace c = true := h c (List.mem_cons_self c t)
    have ht : ∀ x ∈ t, isPySpace x = true := fun x hx => h x (List.mem_cons_of_mem c hx)
    by_cases ha : acc.isEmpty
    · simp [pySplitAux, hc, ha, ih ht, List.isEmpty_iff.mp ha]
    · simp [pySplitAux, hc, ha, ih ht]

theorem pySplitAux_append_ws {tail : List Char} (h : ∀ c ∈ tail, isPySpace c = true) :
    ∀ (l acc : List Char), pySplitAux (l ++ tail) acc = pySplitAux l acc := by
  intro l
  induction l with
  | nil => intro acc; simpa using pySplitAux_all_ws h acc
  | cons c l ih =>
    intro acc
    by_cases hc : isPySpace c = true <;> by_cases ha : acc.isEmpty <;>
      simp [pySplitAux, hc, ha, ih]

theorem takeWhile_append_all {p : Char → Bool} {l1 : List Char}
    (h : ∀ c ∈ l1, p c = true) (l2 : List Char) :
    (l1 ++ l2).takeWhile p = l1 ++ l2.takeWhile p := by
  induction l1 with
  | nil => rfl
  | cons c l1 ih =>
    have hc : p c = true := h c (List.mem_cons_self c l1)
    have ht : ∀ x ∈ l1, p x = true := fun x hx => h x (List.mem_cons_of_mem c hx)
    simp [List.takeWhile_cons, hc, ih ht]

theorem takeWhile_append_stop {p : Char → Bool} {l1 : List Char}
    (h : ∃ c ∈ l1, p c = false) (l2 : List Char) :
    (l1 ++ l2).takeWhile p = l1.takeWhile p := by
  induction l1 with
  | nil => rcases h with ⟨c, hc, _⟩; simp at hc
  | cons c l1 ih =>
    by_cases hc : p c = true
    · rcases h with ⟨x, hx, hpx⟩
      rcases List.mem_cons.mp hx with hx0 | hx1
      · subst hx0; rw [hc] at hpx; cases hpx
      · simp [List.takeWhile_cons, hc, ih ⟨x, hx1, hpx⟩]
    · simp [List.takeWhile_cons, hc]

theorem isPySpace_ne_comma {c : Char} (h : isPySpace c = true) : (c != ',') = true := by
  simp only [isPySpace, Bool.or_eq_true, beq_iff_eq] at h
  rcases h with ((((h | h) | h) | h) | h) | h <;> subst h <;> decide

theorem pySplit_trim_eq (cs : List Char) :
    pySplit (beforeComma (pyTrim cs)) = pySplit (beforeComma cs) := by
  unfold pyTrim pySplit beforeComma
  set ys := cs.dropWhile isPySpace with hys
  set zs := (ys.reverse.dropWhile isPySpace).reverse with hzs
  set tl := (ys.reverse.takeWhile isPySpace).reverse with htl
  have hdecomp : ys = zs ++ tl := by
    calc ys = ys.reverse.reverse := (List.reverse_reverse ys).symm
      _ = (ys.reverse.takeWhile isPySpace ++ ys.reverse.dropWhile isPySpace).reverse := by
          rw [List.takeWhile_append_dropWhile]
      _ = zs ++ tl := by rw [List.reverse_append]
  have htlws : ∀ c ∈ tl, isPySpace c = true := by
    intro c hc
    rw [htl] at hc
    exact List.mem_takeWhile_imp (List.mem_reverse.mp hc)
  have step1 : pySplitAux ((zs ++ tl).takeWhile (fun c => c != ',')) [] =
      pySplitAux (zs.takeWhile (fun c => c != ',')) [] := by
    by_cases hall : ∀ c ∈ zs, (c != ',') = true
    · rw [takeWhile_append_all hall tl]
      rw [List.takeWhile_eq_self_iff.mpr (fun x hx => isPySpace_ne_comma (htlws x hx))]
      rw [List.takeWhile_eq_self_iff.mpr hall]
      exact pySplitAux_append_ws htlws zs []
    · push_neg at hall
      rcases hall with ⟨x, hx, hpx⟩
      have hpx' : (x != ',') = false := by
        cases hb : (x != ',') with
        | false => rfl
        | true => exact absurd hb hpx
      rw [takeWhile_append_stop ⟨x, hx, hpx'⟩ tl]
  have step2 : pySplitAux (ys.takeWhile (fun c => c != ',')) [] =
      pySplitAux (cs.takeWhile (fun c => c != ',')) [] := by
    rw [hys, takeWhile_dropWhile_comm (fun c hc => isPySpace_ne_comma hc) cs]
    exact pySplitAux_dropWhile_ws (cs.takeWhile (fun c => c != ','))
  rw [← hdecomp] at step1
  rw [← step1, step2]

theorem sanitize_eq_amended : ∀ s : String, sanitize_address s = sanitizeSpecAmended s := by
  intro s
  by_cases h : s = ""
  · subst h; rfl
  · unfold sanitize_address sanitizeSpecAmended
    have hb : ¬ (s == "") = true := by simpa using h
    rw [if_neg hb]
    rw [pySplit_trim_eq s.toList]

theorem lookup_dictSet_self (k v : String) :
    ∀ l, List.lookup k (dictSet l k v) = some v := by
  intro l
  induction l with
  | nil => simp [dictSet, List.lookup]
  | cons p rest ih =>
    obtain ⟨k0, v0⟩ := p
    by_cases h : k0 = k
    · subst h; simp [dictSet, List.lookup]
    · have h2 : (k0 == k) = false := beq_eq_false_iff_ne.mpr h
      have h3 : (k == k0) = false := beq_eq_false_iff_ne.mpr (fun he => h he.symm)
      simp [dictSet, List.lookup, h2, h3, ih]

theorem lookup_dictSet_ne {k k' : String} (h : k ≠ k') (v : String) :
    ∀ l, List.lookup k (dictSet l k' v) = List.lookup k l := by
  intro l
  have hkk : (k == k') = false := beq_eq_false_iff_ne.mpr h
  induction l with
  | nil => simp [dictSet, List.lookup, hkk]
  | cons p rest ih =>
    obtain ⟨k0, v0⟩ := p
    by_cases h0 : k0 = k'
    · subst h0
      simp [dictSet, List.lookup, hkk]
    · have h02 : (k0 == k') = false := beq_eq_false_iff_ne.mpr h0
      by_cases hk0 : k = k0
      · subst hk0; simp [dictSet, List.lookup, h02]
      · have hk02 : (k == k0) = false := beq_eq_false_iff_ne.mpr hk0
        simp [dictSet, List.lookup, h02, hk02, ih]

theorem renderTmpl_ok_iff (ctx : List (String × String)) :
    ∀ t : List Tmpl, (∃ s, renderTmpl ctx t = Except.ok s) ↔
      ∀ n ∈ tmplRefs t, (List.lookup n ctx).isSome = true := by
  intro t
  induction t with
  | nil => simp [renderTmpl, tmplRefs]
  | cons item rest ih =>
    cases item with
    | lit s =>
      have hrefs : tmplRefs (Tmpl.lit s :: rest) = tmplRefs rest := by
        simp [tmplRefs, List.filterMap_cons]
      rw [hrefs, ← ih]
      constructor
      · rintro ⟨r, hr⟩
        cases hrr : renderTmpl ctx rest with
        | ok r' => exact ⟨r', rfl⟩
        | error e => simp [renderTmpl, hrr] at hr
      · rintro ⟨r, hr⟩
        exact ⟨s ++ r, by simp [renderTmpl, hr]⟩
    | field n =>
      have hrefs : tmplRefs (Tmpl.field n :: rest) = n :: tmplRefs rest := by
        simp [tmplRefs, List.filterMap_cons]
      rw [hrefs]
      cases hl : List.lookup n ctx with
      | none =>
        constructor
        · rintro ⟨r, hr⟩
          simp [renderTmpl, hl] at hr
        · intro hall
          have := hall n (List.mem_cons_self n _)
          rw [hl] at this
          cases this
      | some v =>
        constructor
        · rintro ⟨r, hr⟩
          intro m hm
          rcases List.mem_cons.mp hm with hm0 | hm1
          · subst hm0; rw [hl]; rfl
          · cases hrr : renderTmpl ctx rest with
            | ok r' => exact (ih.mp ⟨r', hrr⟩) m hm1
            | error e => simp [renderTmpl, hl, hrr] at hr
        · intro hall
          have hrest : ∀ m ∈ tmplRefs rest, (List.lookup m ctx).isSome = true :=
            fun m hm => hall m (List.mem_cons_of_mem n hm)
          obtain ⟨r, hr⟩ := ih.mpr hrest
          exact ⟨v ++ r, by simp [renderTmpl, hl, hr]⟩

theorem renderTmpl_error_spec (ctx : List (String × String)) :
    ∀ (t : List Tmpl) (n : String), renderTmpl ctx t = Except.error n →
      n ∈ tmplRefs t ∧ List.lookup n ctx = none := by
  intro t
  induction t with
  | nil => intro n hn; simp [renderTmpl] at hn
  | cons item rest ih =>
    intro n hn
    cases item with
    | lit s =>
      cases hrr : renderTmpl ctx rest with
      | ok r => simp [renderTmpl, hrr] at hn
      | error e =>
        simp only [renderTmpl, hrr, Except.error.injEq] at hn
        subst hn
        have := ih e hrr
        exact ⟨by simpa [tmplRefs, List.filterMap_cons] using this.1, this.2⟩
    | field m =>
      cases hl : List.lookup m ctx with
      | none =>
        simp only [renderTmpl, hl, Except.error.injEq] at hn
        subst hn
        exact ⟨by simp [tmplRefs, List.filterMap_cons], hl⟩
      | some v =>
        cases hrr : renderTmpl ctx rest with
        | ok r => simp [renderTmpl, hl, hrr] at hn
        | error e =>
          simp only [renderTmpl, hl, hrr, Except.error.injEq] at hn
          subst hn
          have := ih e hrr
          refine ⟨?_, this.2⟩
          simp only [tmplRefs, List.filterMap_cons]
          exact List.mem_cons_of_mem m this.1

/-! ## Claim theorems -/

/-- C1: once `mark_as_posted` has run for a record id with reference `ref`
(and the row existed, so the write affected it), no member of the random
selection candidate set of the resulting table has that id, while the
explicit lookup by that id still returns a record with that id whose
`post_url` equals `ref`. -/
theorem claim_C1_mark_announced_excludes_and_lookup (db : List Lot) (i : Nat)
    (platform ref today : String) (hex : ∃ r ∈ db, r.ogc_fid = i) :
    (∀ r ∈ nextLotCandidates (mark_as_posted db platform ref i today), r.ogc_fid ≠ i) ∧
    (∃ r, specificLot (mark_as_posted db platform ref i today) i = some r ∧
      r.ogc_fid = i ∧ r.post_url = some ref) := by
  constructor
  · intro r hr
    rcases List.mem_filter.mp hr with ⟨hmem, helig⟩
    unfold mark_as_posted at hmem
    rcases List.mem_map.mp hmem with ⟨r0, hr0, heq⟩
    by_cases h0 : r0.ogc_fid = i
    · simp only [h0, if_true] at heq
      subst heq
      simp [lotEligible] at helig
    · simp only [if_neg h0] at heq
      subst heq
      exact h0
  · rcases hex with ⟨r0, hmem, hfid⟩
    have humem : (Lot.mk r0.ogc_fid true r0.improvement_value (some ref) (some today)) ∈
        mark_as_posted db platform ref i today := by
      unfold mark_as_posted
      exact List.mem_map.mpr ⟨r0, hmem, by simp [hfid]⟩
    have hsome : (specificLot (mark_as_posted db platform ref i today) i).isSome = true := by
      unfold specificLot
      exact List.find?_isSome.mpr ⟨_, humem, by simp [hfid]⟩
    obtain ⟨r, hfind⟩ := Option.isSome_iff_exists.mp hsome
    have hpred : r.ogc_fid = i := by
      have h1 := List.find?_some hfind
      simpa using h1
    have hmem2 : r ∈ mark_as_posted db platform ref i today :=
      List.mem_of_find?_eq_some hfind
    unfold mark_as_posted at hmem2
    rcases List.mem_map.mp hmem2 with ⟨r1, hr1, heq⟩
    by_cases h1 : r1.ogc_fid = i
    · simp only [h1, if_true] at heq
      subst heq
      exact ⟨_, hfind, hpred, rfl⟩
    · simp only [if_neg h1] at heq
      subst heq
      exact absurd hpred h1

/-- Witness for C1 on a concrete two-row table. -/
theorem claim_C1_witness :
    (∀ r ∈ nextLotCandidates (mark_as_posted wDb "bluesky" "https://bsky.example/1" 1 "2026-10-12"),
      r.ogc_fid ≠ 1) ∧
    (∃ r, specificLot (mark_as_posted wDb "bluesky" "https://bsky.example/1" 1 "2026-10-12") 1 =
      some r ∧ r.ogc_fid = 1 ∧ r.post_url = some "https://bsky.example/1") :=
  claim_C1_mark_announced_excludes_and_lookup wDb 1 "bluesky" "https://bsky.example/1"
    "2026-10-12" (by decide)

/-- C2: the zoning decoder equals the reference algorithm stated by the spec
(exact key first, then longest hyphen-joined prefix, suffixes mapped with
pass-through, unknown-code fallback), and the three quoted examples hold. -/
theorem claim_C2_decode_zoning_reference :
    (∀ s : String, get_cincinnati_zoning_description s = decodeZoning_spec s) ∧
    get_cincinnati_zoning_description "SF-4-T" =
      "Single-family (4,000 sq ft min lot) - Transportation Corridor Overlay" ∧
    get_cincinnati_zoning_description "RF-M" = "Riverfront Manufacturing" ∧
    get_cincinnati_zoning_description "ZZ-Q" = "Unknown Zoning Code: ZZ-Q" :=
  ⟨zoning_decode_eq_spec, by decide, by decide, by decide⟩

/-- C3 counterexample: on the input "1 DAMEN" the code produces "1 Damen"
(Python `capitalize` lowercases the rest of the token), while the claim's
algorithm, which only uppercases the first letter, produces "1 DAMEN". -/
theorem claim_C3_counterexample :
    sanitize_address "1 DAMEN" ≠ sanitizeSpecStated "1 DAMEN" ∧
    sanitize_address "1 DAMEN" = "1 Damen" ∧
    sanitizeSpecStated "1 DAMEN" = "1 DAMEN" := by decide

/-- C3 amended: `sanitize_address` equals the claim's reference algorithm
once "emitted with its first letter uppercased" is amended to "first letter
uppercased and the remaining letters lowercased"; the quoted examples hold. -/
theorem claim_C3_sanitize_reference_amended :
    (∀ s : String, sanitize_address s = sanitizeSpecAmended s) ∧
    sanitize_address "2023 N DAMEN AVE" = "2023 North Damen Avenue" ∧
    sanitize_address "" = "" :=
  ⟨sanitize_eq_amended, by decide, by decide⟩

/-- C4: the explicit lookup returns a record exactly when one with that id
is in the table (its id matches, regardless of `is_posted`), returning none
only when no such id exists; the random selection candidates are exactly the
records with `is_posted = false` and `improvement_value > 0`, with the empty
candidate list exactly when no record is eligible.  Both selections are pure
functions of the table. -/
theorem claim_C4_select_lot (db : List Lot) (i : Nat) :
    (∀ r, specificLot db i = some r → r.ogc_fid = i) ∧
    (∀ r ∈ db, r.ogc_fid = i → (specificLot db i).isSome = true) ∧
    (specificLot db i = none ↔ ∀ r ∈ db, r.ogc_fid ≠ i) ∧
    (∀ r ∈ nextLotCandidates db, r.is_posted = false ∧ 0 < r.improvement_value) ∧
    (nextLotCandidates db = [] ↔ ∀ r ∈ db, ¬(r.is_posted = false ∧ 0 < r.improvement_value)) := by
  refine ⟨?_, ?_, ?_, ?_, ?_⟩
  · intro r hr
    have h1 := List.find?_some hr
    simpa using h1
  · intro r hmem hri
    exact List.find?_isSome.mpr ⟨r, hmem, by simp [hri]⟩
  · unfold specificLot
    rw [List.find?_eq_none]
    constructor
    · intro h r hmem hri
      exact (h r hmem) (by simp [hri])
    · intro h r hmem
      simpa using h r hmem
  · intro r hr
    rcases List.mem_filter.mp hr with ⟨_, helig⟩
    simpa only [lotEligible, Bool.and_eq_true, Bool.not_eq_true', decide_eq_true_iff]
      using helig
  · unfold nextLotCandidates
    rw [List.filter_eq_nil_iff]
    constructor
    · intro h r hmem hcontra
      exact h r hmem
        (by simp only [lotEligible, Bool.and_eq_true, Bool.not_eq_true', decide_eq_true_iff]
            exact hcontra)
    · intro h r hmem helig
      exact h r hmem
        (by simpa only [lotEligible, Bool.and_eq_true, Bool.not_eq_true', decide_eq_true_iff]
            using helig)

/-- Witness for C4: the posted sample row is still found by explicit id and
its id matches. -/
theorem claim_C4_witness :
    wLotB.ogc_fid = 2 ∧ (specificLot wDb 2).isSome = true :=
  ⟨(claim_C4_select_lot wDb 2).1 wLotB (by decide),
   (claim_C4_select_lot wDb 2).2.1 wLotB (by decide) (by decide)⟩

/-- C5: `compose` succeeds with a rendered status when every placeholder the
template references is present in the merged context, and otherwise fails
with an error naming a referenced field that is absent from the context;
every error it returns names such a missing field. -/
theorem claim_C5_compose_missing_field (lot : List (String × String)) (tmpl : List Tmpl) :
    ((∀ n ∈ tmplRefs tmpl, (List.lookup n (composeContext lot)).isSome = true) →
      ∃ d, compose lot tmpl = Except.ok d) ∧
    (∀ n, compose lot tmpl = Except.error n →
      n ∈ tmplRefs tmpl ∧ List.lookup n (composeContext lot) = none) ∧
    ((∃ n ∈ tmplRefs tmpl, List.lookup n (composeContext lot) = none) →
      ∃ n, compose lot tmpl = Except.error n ∧ n ∈ tmplRefs tmpl ∧
        List.lookup n (composeContext lot) = none) := by
  refine ⟨?_, ?_, ?_⟩
  · intro hall
    obtain ⟨s, hs⟩ := (renderTmpl_ok_iff (composeContext lot) tmpl).mpr hall
    exact ⟨PostDraft.mk s (dictGetD lot "lat" "0.0") (dictGetD lot "lon" "0.0"),
      by simp [compose, hs]⟩
  · intro n hn
    unfold compose at hn
    cases hr : renderTmpl (composeContext lot) tmpl with
    | ok s => rw [hr] at hn; cases hn
    | error e =>
      rw [hr] at hn
      simp only [Except.error.injEq] at hn
      subst hn
      exact renderTmpl_error_spec _ tmpl e hr
  · rintro ⟨n, hn, hmiss⟩
    cases hr : renderTmpl (composeContext lot) tmpl with
    | ok s =>
      have := (renderTmpl_ok_iff _ _).mp ⟨s, hr⟩ n hn
      rw [hmiss] at this
      cases this
    | error e =>
      have he := renderTmpl_error_spec _ tmpl e hr
      exact ⟨e, by simp [compose, hr], he.1, he.2⟩

/-- Witness for C5: a fully-resolvable template composes, a template that
references the absent field "acreage" fails naming a missing field. -/
theorem claim_C5_witness :
    (∃ d, compose wLotC wTmplOk = Except.ok d) ∧
    (∃ n, compose wLotC wTmplBad = Except.error n ∧ n ∈ tmplRefs wTmplBad ∧
      List.lookup n (composeContext wLotC) = none) :=
  ⟨(claim_C5_compose_missing_field wLotC wTmplOk).1 (by decide),
   (claim_C5_compose_missing_field wLotC wTmplBad).2.2 (by decide)⟩

/-- C6: the address sanitizer and the zoning decoder are total computable
functions of their string input (they are defined here as plain Lean
functions `String → String`, so termination and freedom from I/O and
exceptions hold by construction) and are deterministic: identical inputs
give identical outputs. -/
theorem claim_C6_sanitizer_decoder_deterministic :
    ∀ s t : String, s = t →
      sanitize_address s = sanitize_address t ∧
      get_cincinnati_zoning_description s = get_cincinnati_zoning_description t := by
  intro s t h
  subst h
  exact ⟨rfl, rfl⟩

/-- Witness for C6 at a concrete input. -/
theorem claim_C6_witness :
    sanitize_address "2023 N DAMEN AVE" = sanitize_address "2023 N DAMEN AVE" ∧
    get_cincinnati_zoning_description "2023 N DAMEN AVE" =
      get_cincinnati_zoning_description "2023 N DAMEN AVE" :=
  claim_C6_sanitizer_decoder_deterministic "2023 N DAMEN AVE" "2023 N DAMEN AVE" rfl

/-- C7: the composed rendering context maps `zoning` to
`"<decoded> (<original>)"` exactly when the record has a `zoning` value, and
has no `zoning` entry when the record has none. -/
theorem claim_C7_zoning_rewrite (lot : List (String × String)) :
    (∀ z, List.lookup "zoning" lot = some z →
      List.lookup "zoning" (composeContext lot) =
        some (get_cincinnati_zoning_description z ++ " (" ++ z ++ ")")) ∧
    (List.lookup "zoning" lot = none →
      List.lookup "zoning" (composeContext lot) = none) := by
  have hne : ("zoning" : String) ≠ "address" := by decide
  have haddr : List.lookup "zoning" (composeAddr lot) = List.lookup "zoning" lot := by
    unfold composeAddr
    exact lookup_dictSet_ne hne _ lot
  constructor
  · intro z hz
    unfold composeContext
    rw [haddr, hz]
    exact lookup_dictSet_self "zoning" _ _
  · intro hz
    unfold composeContext
    rw [haddr, hz]
    exact haddr.trans hz

/-- Witness for C7: a record with zoning "SF-4-T" gets the rewritten field, a
record without zoning keeps the key absent. -/
theorem claim_C7_witness :
    List.lookup "zoning" (composeContext wLotZ) =
      some (get_cincinnati_zoning_description "SF-4-T" ++ " (" ++ "SF-4-T" ++ ")") ∧
    List.lookup "zoning" (composeContext wLotN) = none :=
  ⟨(claim_C7_zoning_rewrite wLotZ).1 "SF-4-T" (by decide),
   (claim_C7_zoning_rewrite wLotN).2 (by decide)⟩

/-- C8 counterexample: the code runs Python `capitalize` on plain tokens,
which forces the rest of the token to lower case — "McDONALD" becomes
"Mcdonald" — while the claim's transformation (first letter uppercased, rest
unchanged) would leave "McDONALD" untouched. -/
theorem claim_C8_counterexample :
    sanitize_address "1 McDONALD" = "1 Mcdonald" ∧
    firstUpperOnly "McDONALD" = "McDONALD" ∧
    sanitize_address "1 McDONALD" ≠ "1 McDONALD" := by decide

/-- C8 amended: a later token matching neither a direction nor a street type
is emitted as Python `capitalize` of the token: first letter uppercased and
the remaining letters lowercased. -/
theorem claim_C8_capitalize_amended (t : String) (rest : List String)
    (h1 : List.lookup t directions = none) (h2 : List.lookup t street_types = none) :
    restLoop pyCapitalize (t :: rest) = pyCapitalize t :: restLoop pyCapitalize rest := by
  simp [restLoop, h1, h2]

/-- Witness for C8 at a concrete token. -/
theorem claim_C8_witness :
    restLoop pyCapitalize ("McDONALD" :: []) =
      pyCapitalize "McDONALD" :: restLoop pyCapitalize [] :=
  claim_C8_capitalize_amended "McDONALD" [] (by decide) (by decide)

/-- C9: the sanitizer is not idempotent: sanitizing "1 n" capitalizes "n" to
"N", and a second pass then expands "N" to "North". -/
theorem claim_C9_sanitize_not_idempotent :
    ∃ s : String, sanitize_address (sanitize_address s) ≠ sanitize_address s :=
  ⟨"1 n", by decide⟩

/-- C10: the table state written by `mark_as_posted` does not depend on the
`platform` argument: any two platform values produce the identical update. -/
theorem claim_C10_platform_independent (db : List Lot) (p1 p2 post_id : String)
    (lotId : Nat) (today : String) :
    mark_as_posted db p1 post_id lotId today = mark_as_posted db p2 post_id lotId today := rfl

end EverylotCincinnati
